import Mathlib

/-
A verification development for the `datastore` composite key-value store
library (datastore/basic.py). Python dictionaries are modelled as
association lists, Python `None` (the absence sentinel) as `Option.none`,
and Python runtime errors as an explicit `PyError` type. Each definition
names the source construct it embeds.
-/

set_option autoImplicit false

/-- Python runtime errors that the embedded code can raise. -/
inductive PyError where
  | zeroDivision
  | notImplementedError
  | valueError
deriving DecidableEq

/-- Model of a Python dict lookup `d[k]` returning `None`-style absence:
first binding whose key equals `k`. -/
def assocGet {K V : Type} [DecidableEq K] (d : List (K × V)) (k : K) : Option V :=
  match d with
  | [] => none
  | (k1, v1) :: rest => if k1 = k then some v1 else assocGet rest k

/-- Model of Python dict assignment `d[k] = v`: replace the binding of `k`
in place, or append a new binding. -/
def assocPut {K V : Type} [DecidableEq K] (d : List (K × V)) (k : K) (v : V) : List (K × V) :=
  match d with
  | [] => [(k, v)]
  | (k1, v1) :: rest => if k1 = k then (k, v) :: rest else (k1, v1) :: assocPut rest k v

/-- Model of Python `del d[k]`: remove the binding of `k` (a Python dict
holds at most one binding per key, so removing every match is the same
operation on representable states). -/
def assocDel {K V : Type} [DecidableEq K] (d : List (K × V)) (k : K) : List (K × V) :=
  match d with
  | [] => []
  | (k1, v1) :: rest => if k1 = k then assocDel rest k else (k1, v1) :: assocDel rest k

/-- Key (from the external `key` module): hierarchical identifier with a
parent-path string (`str(key.path)`) and a leaf name (`key.name`).
Equality is structural, consistent with the canonical string form. -/
structure Key where
  path : String
  name : String
deriving DecidableEq

/-- DictDatastore state (`self._items`, line 96): a dict from namespace
collection strings to per-collection dicts from keys to values. -/
abbrev DictState (V : Type) := List (String × List (Key × V))

/-- DictDatastore._collection (lines 98-103): returns the collection for
`str(key.path)`, inserting an empty collection first when absent. The
possibly extended state is returned alongside the collection. -/
def DictDatastore.collectionOf {V : Type} (s : DictState V) (c : String) :
    DictState V × List (Key × V) :=
  match assocGet s c with
  | some d => (s, d)
  | none => (assocPut s c [], [])

/-- DictDatastore.get (lines 105-119): look `key` up in the collection for
`key.path`; a KeyError yields `None`. Returns the (possibly extended)
state and the result. -/
def DictDatastore.get {V : Type} (s : DictState V) (k : Key) : DictState V × Option V :=
  let p := DictDatastore.collectionOf s k.path
  (p.1, assocGet p.2 k)

/-- DictDatastore.delete (lines 135-149): delete `key` from its collection
(KeyError is swallowed, leaving the possibly just-created empty collection
in place); when the collection becomes empty it is removed from `_items`. -/
def DictDatastore.delete {V : Type} (s : DictState V) (k : Key) : DictState V :=
  let p := DictDatastore.collectionOf s k.path
  if (assocGet p.2 k).isSome then
    let d2 := assocDel p.2 k
    if d2.isEmpty then assocDel p.1 k.path
    else assocPut p.1 k.path d2
  else p.1

/-- DictDatastore.put (lines 121-133): `value is None` means delete;
otherwise store the value in the collection for `key.path`. -/
def DictDatastore.put {V : Type} (s : DictState V) (k : Key) (v : Option V) : DictState V :=
  match v with
  | none => DictDatastore.delete s k
  | some v =>
    let p := DictDatastore.collectionOf s k.path
    assocPut p.1 k.path (assocPut p.2 k v)

/-- Query (from the external `query` module, not among the sources).
Modelled from the spec: a criteria record with a target Key, an offset
defaulting to 0, an optional limit, an ordered list of sort directives and
a list of filter predicates. A sort directive is modelled as the boolean
comparison it induces; a filter as a boolean predicate. -/
structure Query (V : Type) where
  key : Key
  offset : Nat
  limit : Option Nat
  order : List (V → V → Bool)
  filters : List (V → Bool)

/-- Modelled from the spec: `Query.copy()` produces an independent mutable
clone; in the pure value model the clone is a field-wise copy. -/
def Query.copy {V : Type} (q : Query V) : Query V :=
  { key := q.key, offset := q.offset, limit := q.limit,
    order := q.order, filters := q.filters }

/-- A placeholder query used as the default value of heap reads. -/
def Query.dummy (V : Type) : Query V :=
  { key := { path := "", name := "" }, offset := 0, limit := none,
    order := [], filters := [] }

/-- Python truthiness of an optional integer: `None` and `0` are falsy.
Used for the `if shard_query.limit:` test on line 727. -/
def pyTruthy : Option Nat → Bool
  | none => false
  | some n => n != 0

/-- Modelled from the spec: applying the filter predicates of a query,
keeping the items every filter accepts. -/
def applyFilters {V : Type} (fs : List (V → Bool)) (xs : List V) : List V :=
  fs.foldl (fun acc f => acc.filter f) xs

/-- Insertion into a sorted list, keeping earlier elements first on ties
(stable). -/
def insertSorted {V : Type} (le : V → V → Bool) (x : V) : List V → List V
  | [] => [x]
  | y :: ys => if le x y then x :: y :: ys else y :: insertSorted le x ys

/-- Stable insertion sort by one sort directive. -/
def sortByDir {V : Type} (le : V → V → Bool) (xs : List V) : List V :=
  xs.foldr (insertSorted le) []

/-- Modelled from the spec: the eager materializing sort pass over a fully
known result list, applying the ordered sort directives (later directives
are applied first so earlier directives dominate, as with stacked stable
sorts). -/
def applyOrderDirs {V : Type} (dirs : List (V → V → Bool)) (xs : List V) : List V :=
  dirs.foldr (fun d acc => sortByDir d acc) xs

/-- The observable outcome of running one Query against one child store:
the yielded results plus the two Cursor counters. Modelled from the spec:
`skipped` counts the matching-but-pre-offset items consumed, `returned`
counts the items actually yielded. -/
structure CursorResult (V : Type) where
  results : List V
  skipped : Nat
  returned : Nat

/-- Modelled from the spec: executing a Query over the matching items of a
child datastore (the `query` module is not among the sources). Filters
select matching items, an order directive sorts them, `offset` items are
then skipped and at most `limit` items are yielded. -/
def runQuery {V : Type} (q : Query V) (items : List V) : CursorResult V :=
  let matched := applyFilters q.filters items
  let ordered := applyOrderDirs q.order matched
  let afterOffset := ordered.drop q.offset
  let yielded :=
    match q.limit with
    | none => afterOffset
    | some l => afterOffset.take l
  { results := yielded,
    skipped := (ordered.take q.offset).length,
    returned := yielded.length }

/-- Cursor (from the external `query` module): the query it is bound to
plus the produced sequence, fully evaluated in the pure model. -/
structure Cursor (V : Type) where
  query : Query V
  iterable : List V

/-- Modelled from the spec: `Cursor.apply_order()` applies the expensive
full-materialization sort pass exactly when the bound Query requested an
order directive; otherwise the sequence is left as produced. -/
def Cursor.apply_order {V : Type} (c : Cursor V) : Cursor V :=
  if c.query.order.isEmpty then c
  else { c with iterable := applyOrderDirs c.query.order c.iterable }

/-- The offset/limit renormalization of lines 726-728: the offset drops by
the skipped count and the limit by the returned count, both floored at 0
(Nat subtraction is the `max(x - y, 0)` of the source). -/
def renormQuery {V : Type} (sq : Query V) (cur : CursorResult V) : Query V :=
  { sq with offset := sq.offset - cur.skipped,
            limit := sq.limit.map (fun l => l - cur.returned) }

/-- The loop body of ShardedDatastore.shard_query_generator (lines
719-731), over child shards modelled by their matching item lists. Besides
the merged output it returns the trace of queries issued to successive
shards, in visiting order. Line 726 updates the offset; line 727 tests the
pre-update limit for Python truthiness; line 728 updates the limit; lines
730-731 break out when the updated limit has reached 0. -/
def shardGo {V : Type} (sq : Query V) : List (List V) → List V × List (Query V)
  | [] => ([], [])
  | shard :: rest =>
    let cur := runQuery sq shard
    let sq1 : Query V := { sq with offset := sq.offset - cur.skipped }
    if pyTruthy sq1.limit then
      let sq2 : Query V := { sq1 with limit := sq1.limit.map (fun l => l - cur.returned) }
      if pyTruthy sq2.limit then
        let r := shardGo sq2 rest
        (cur.results ++ r.1, sq :: r.2)
      else
        (cur.results, [sq])
    else
      let r := shardGo sq1 rest
      (cur.results ++ r.1, sq :: r.2)

/-- ShardedDatastore.shard_query_generator (lines 715-731): clone the
query once (line 717) and run the shard loop. -/
def ShardedDatastore.shard_query_generator {V : Type} (q : Query V)
    (shards : List (List V)) : List V × List (Query V) :=
  shardGo (Query.copy q) shards

/-- ShardedDatastore.query (lines 709-713): wrap the generator output in a
Cursor bound to the original query and call `apply_order` on it. -/
def ShardedDatastore.query {V : Type} (q : Query V) (shards : List (List V)) : Cursor V :=
  Cursor.apply_order { query := q, iterable := (ShardedDatastore.shard_query_generator q shards).1 }

/-- A heap of Query objects addressed by allocation index, used to model
Python object identity and in-place mutation for the frame claims. -/
abbrev QHeap (V : Type) := List (Query V)

/-- Modelled from the spec: `query.copy()` on the heap model allocates a
fresh cell holding a field-wise copy of the cell at `r`. -/
def Query.copyH {V : Type} (h : QHeap V) (r : Nat) : QHeap V × Nat :=
  (h ++ [(h.get? r).getD (Query.dummy V)], h.length)

/-- KeyTransformDatastore.query (lines 384-388) on the heap model: copy
the incoming query, overwrite the key field of the copy with the
transformed key, and hand the copy to the child. Returns the heap after
the call and the reference passed to the child. -/
def KeyTransformDatastore.queryH {V : Type} (t : Key → Key) (h : QHeap V) (r : Nat) :
    QHeap V × Nat :=
  let p := Query.copyH h r
  let q1 := (p.1.get? p.2).getD (Query.dummy V)
  (p.1.set p.2 { q1 with key := t q1.key }, p.2)

/-- The shard loop of lines 719-731 on the heap model: the single clone at
`rq` is mutated in place after each shard (offset on line 726, limit on
line 728). Returns the final heap and the merged output. -/
def shardGoH {V : Type} : List (List V) → QHeap V → Nat → QHeap V × List V
  | [], h, _ => (h, [])
  | shard :: rest, h, rq =>
    let sq := (h.get? rq).getD (Query.dummy V)
    let cur := runQuery sq shard
    let h1 := h.set rq { sq with offset := sq.offset - cur.skipped }
    if pyTruthy sq.limit then
      let sq2 : Query V := { sq with offset := sq.offset - cur.skipped,
                                     limit := sq.limit.map (fun l => l - cur.returned) }
      let h2 := h1.set rq sq2
      if pyTruthy sq2.limit then
        let r := shardGoH rest h2 rq
        (r.1, cur.results ++ r.2)
      else
        (h2, cur.results)
    else
      let r := shardGoH rest h1 rq
      (r.1, cur.results ++ r.2)

/-- ShardedDatastore.shard_query_generator (lines 715-731) on the heap
model: line 717 allocates the clone, the loop mutates only the clone. -/
def ShardedDatastore.shard_query_generatorH {V : Type} (h : QHeap V) (r : Nat)
    (shards : List (List V)) : QHeap V × List V :=
  let p := Query.copyH h r
  shardGoH shards p.1 p.2

/-- The list-slicing loop of NestedPathDatastore.nestedPath (line 550):
`[path[n:n+length] for n in xrange(0, len(path), length)]`, driven by a
fuel bounded by the list length (each step consumes at least one
character, so `cs.length` fuel always suffices). -/
def sliceChunksGo (len : Nat) : Nat → List Char → List (List Char)
  | 0, _ => []
  | _ + 1, [] => []
  | fuel + 1, c :: rest => (c :: rest).take len :: sliceChunksGo len fuel ((c :: rest).drop len)

/-- NestedPathDatastore.nestedPath (lines 534-552): slice the path into
consecutive chunks of `length` characters, keep the first `depth` chunks
and join them with a slash. A zero `length` makes `xrange` raise a
ValueError in Python, modelled as an error result. -/
def NestedPathDatastore.nestedPath (path : String) (depth length : Nat) :
    Except PyError String :=
  if length = 0 then Except.error PyError.valueError
  else
    let components := sliceChunksGo length path.data.length path.data
    Except.ok (String.intercalate "/" ((components.take depth).map (fun cs => String.mk cs)))

/-- NestedPathDatastore.query (lines 518-520): `raise NotImplementedError`
for every query. -/
def NestedPathDatastore.query {V : Type} (_q : Query V) : Except PyError (Cursor V) :=
  Except.error PyError.notImplementedError

/-- The first tier hit of TieredDatastore.get (lines 618-622): index and
value of the first child store whose `get` is not `None`. Child stores are
modelled by the minimal contract-conforming store, a key-value map. -/
def firstHit {V : Type} (k : Key) : List (List (Key × V)) → Option (Nat × V)
  | [] => none
  | s :: rest =>
    match assocGet s k with
    | some v => some (0, v)
    | none => (firstHit k rest).map (fun p => (p.1 + 1, p.2))

/-- TieredDatastore.get (lines 616-631): probe the tiers in order for the
first hit; on a hit, the promotion loop (lines 625-629) writes the found
value into every tier before the hit tier; without a hit the state is left
unchanged and `None` is returned. -/
def TieredDatastore.get {V : Type} (stores : List (List (Key × V))) (k : Key) :
    List (List (Key × V)) × Option V :=
  match firstHit k stores with
  | none => (stores, none)
  | some (i, v) => ((stores.take i).map (fun s => assocPut s k v) ++ stores.drop i, some v)

/-- The Datastore contract `put` of a child store on the key-value map
model: storing the absence sentinel means deletion (section 4.1),
otherwise the binding is replaced. -/
def dsPut {V : Type} (s : List (Key × V)) (k : Key) (v : Option V) : List (Key × V) :=
  match v with
  | none => assocDel s k
  | some v => assocPut s k v

/-- TieredDatastore.put (lines 633-636): write through to every tier, in
order, unconditionally. -/
def TieredDatastore.put {V : Type} (stores : List (List (Key × V))) (k : Key)
    (v : Option V) : List (List (Key × V)) :=
  stores.map (fun s => dsPut s k v)

/-- ShardedDatastore state: the ordered shard list (children modelled as
key-value maps) and the sharding function (Key to integer, line 675). -/
structure ShardedState (V : Type) where
  stores : List (List (Key × V))
  shardingfn : Key → Int

/-- ShardedDatastore.__init__ (lines 675-681): the `callable(shardingfn)`
check and the DatastoreCollection element type check always succeed in the
typed embedding, so construction succeeds for any store list, the empty
list included. -/
def ShardedDatastore.init {V : Type} (stores : List (List (Key × V))) (fn : Key → Int) :
    Except PyError (ShardedState V) :=
  Except.ok { stores := stores, shardingfn := fn }

/-- ShardedDatastore.shard (lines 684-686): `shardingfn(key) %
len(self._stores)`; with zero stores Python raises ZeroDivisionError. For
a positive store count the Python `%` on integers is the euclidean
remainder, always non-negative. -/
def ShardedDatastore.shard {V : Type} (st : ShardedState V) (k : Key) : Except PyError Nat :=
  if st.stores.length = 0 then Except.error PyError.zeroDivision
  else Except.ok (st.shardingfn k % (st.stores.length : Int)).toNat

/-- ShardedDatastore.get (lines 693-695): route to the selected shard; a
failure of shard selection propagates. -/
def ShardedDatastore.get {V : Type} (st : ShardedState V) (k : Key) :
    Except PyError (Option V) :=
  match ShardedDatastore.shard st k with
  | Except.error e => Except.error e
  | Except.ok i => Except.ok (assocGet (st.stores.getD i []) k)

/-- ShardedDatastore.put (lines 697-699): route to the selected shard. -/
def ShardedDatastore.put {V : Type} (st : ShardedState V) (k : Key) (v : Option V) :
    Except PyError (ShardedState V) :=
  match ShardedDatastore.shard st k with
  | Except.error e => Except.error e
  | Except.ok i =>
    Except.ok { st with stores := st.stores.set i (dsPut (st.stores.getD i []) k v) }

/-- ShardedDatastore.delete (lines 701-703): route to the selected shard. -/
def ShardedDatastore.delete {V : Type} (st : ShardedState V) (k : Key) :
    Except PyError (ShardedState V) :=
  match ShardedDatastore.shard st k with
  | Except.error e => Except.error e
  | Except.ok i =>
    Except.ok { st with stores := st.stores.set i (assocDel (st.stores.getD i []) k) }

/-- ShardedDatastore.contains (lines 705-707): route to the selected
shard; the child map reports presence of the key. -/
def ShardedDatastore.contains {V : Type} (st : ShardedState V) (k : Key) :
    Except PyError Bool :=
  match ShardedDatastore.shard st k with
  | Except.error e => Except.error e
  | Except.ok i => Except.ok (assocGet (st.stores.getD i []) k).isSome

/-- A concrete key for the witness instances. -/
def kW : Key := { path := "/a", name := "b" }

/-- A concrete query (offset 1, limit 3) for the witness instances. -/
def qW : Query Nat :=
  { key := kW, offset := 1, limit := some 3, order := [], filters := [] }

/-- Concrete shard contents for the witness instances. -/
def shardsW : List (List Nat) := [[10, 20], [30, 40, 50]]

/-- A concrete query requesting an order directive, for the witness
instances. -/
def qOrdW : Query Nat :=
  { key := kW, offset := 0, limit := none,
    order := [fun a b => decide (a ≤ b)], filters := [] }

theorem assocGet_assocPut_self {K V : Type} [DecidableEq K]
    (d : List (K × V)) (k : K) (v : V) : assocGet (assocPut d k v) k = some v := by
  induction d with
  | nil => simp [assocGet, assocPut]
  | cons hd tl ih =>
    obtain ⟨k1, v1⟩ := hd
    by_cases h : k1 = k
    · simp [assocGet, assocPut, h]
    · simp [assocGet, assocPut, h, ih]

theorem assocGet_assocDel_self {K V : Type} [DecidableEq K]
    (d : List (K × V)) (k : K) : assocGet (assocDel d k) k = none := by
  induction d with
  | nil => simp [assocGet, assocDel]
  | cons hd tl ih =>
    obtain ⟨k1, v1⟩ := hd
    by_cases h : k1 = k
    · simp [assocDel, h, ih]
    · simp [assocGet, assocDel, h, ih]

/-- C7: for every DictDatastore state, every key k, and every value v not
equal to the absence sentinel, put(k, v) followed by get(k) returns v. -/
theorem dict_put_then_get {V : Type} (s : DictState V) (k : Key) (v : Option V)
    (hv : v ≠ none) : (DictDatastore.get (DictDatastore.put s k v) k).2 = v := by
  match v with
  | none => exact absurd rfl hv
  | some v =>
    unfold DictDatastore.put DictDatastore.get DictDatastore.collectionOf
    cases hc : assocGet s k.path with
    | some d => simp [hc, assocGet_assocPut_self]
    | none => simp [hc, assocGet_assocPut_self]

/-- Witness for C7 at a concrete store, key and value. -/
theorem dict_put_then_get_witness :
    (DictDatastore.get (DictDatastore.put ([] : DictState Nat) kW (some 7)) kW).2 = some 7 :=
  dict_put_then_get [] kW (some 7) (by decide)

/-- C6: for every DictDatastore state and key, storing the absence
sentinel is exactly deletion: put(k, none) produces the very state
delete(k) produces, and a following get(k) returns absent. -/
theorem dict_put_none_is_delete {V : Type} (s : DictState V) (k : Key) :
    DictDatastore.put s k none = DictDatastore.delete s k
    ∧ (DictDatastore.get (DictDatastore.put s k none) k).2 = none := by
  refine ⟨rfl, ?_⟩
  show (DictDatastore.get (DictDatastore.delete s k) k).2 = none
  unfold DictDatastore.delete DictDatastore.get DictDatastore.collectionOf
  cases hc : assocGet s k.path with
  | none =>
    simp [hc, assocGet_assocPut_self, assocGet]
  | some d =>
    cases hk : assocGet d k with
    | none => simp [hc, hk]
    | some v =>
      by_cases he : (assocDel d k).isEmpty
      · simp [hc, hk, he, assocGet_assocDel_self, assocGet]
      · simp [hc, hk, he, assocGet_assocPut_self, assocGet_assocDel_self]

/-- C9: NestedPathDatastore.query reports a not-implemented condition for
every query; it never returns a result cursor, empty or otherwise. -/
theorem nestedpath_query_unsupported {V : Type} (q : Query V) :
    NestedPathDatastore.query q = Except.error PyError.notImplementedError
    ∧ ∀ c : Cursor V, NestedPathDatastore.query q ≠ Except.ok c :=
  ⟨rfl, fun _ h => Except.noConfusion h⟩

/-- C5: nestedPath splits the input into consecutive chunks of the given
length, keeps the first depth chunks and joins them with a slash; checked
on the five documented instances. -/
theorem nestedPath_examples :
    NestedPathDatastore.nestedPath "abcdefghijk" 3 2 = Except.ok "ab/cd/ef"
    ∧ NestedPathDatastore.nestedPath "abcdefghijk" 4 2 = Except.ok "ab/cd/ef/gh"
    ∧ NestedPathDatastore.nestedPath "abcdefghijk" 3 4 = Except.ok "abcd/efgh/ijk"
    ∧ NestedPathDatastore.nestedPath "abcdefghijk" 1 4 = Except.ok "abcd"
    ∧ NestedPathDatastore.nestedPath "abcdefghijk" 3 10 = Except.ok "abcdefghij/k" := by
  refine ⟨?_, ?_, ?_, ?_, ?_⟩ <;> rfl

theorem take_length_append {A : Type} (l1 l2 : List A) : (l1 ++ l2).take l1.length = l1 := by
  induction l1 with
  | nil => rfl
  | cons a t ih => simp [List.take, ih]

theorem drop_length_append {A : Type} (l1 l2 : List A) : (l1 ++ l2).drop l1.length = l2 := by
  induction l1 with
  | nil => rfl
  | cons a t ih => simp [List.drop, ih]

theorem firstHit_of_all_none {V : Type} (k : Key) (stores : List (List (Key × V)))
    (h : ∀ s ∈ stores, assocGet s k = none) : firstHit k stores = none := by
  induction stores with
  | nil => rfl
  | cons s rest ih =>
    have hs : assocGet s k = none := h s (by simp)
    simp [firstHit, hs, ih (fun x hx => h x (by simp [hx]))]

theorem firstHit_append {V : Type} (k : Key) (pre post : List (List (Key × V)))
    (hit : List (Key × V)) (v : V)
    (hpre : ∀ s ∈ pre, assocGet s k = none) (hhit : assocGet hit k = some v) :
    firstHit k (pre ++ hit :: post) = some (pre.length, v) := by
  induction pre with
  | nil => simp [firstHit, hhit]
  | cons s rest ih =>
    have hs : assocGet s k = none := hpre s (by simp)
    simp [firstHit, hs, ih (fun x hx => hpre x (by simp [hx]))]

/-- C3: TieredDatastore.get returns the value at the first tier holding
the key (absent when no tier holds it); a hit at tier i promotes the value
into every earlier tier, which then reports it, and a hit at the first
tier changes no state. -/
theorem tiered_get_promotion {V : Type} :
    (∀ (stores : List (List (Key × V))) (k : Key),
        (∀ s ∈ stores, assocGet s k = none) →
        TieredDatastore.get stores k = (stores, none))
    ∧ (∀ (pre post : List (List (Key × V))) (hit : List (Key × V)) (k : Key) (v : V),
        (∀ s ∈ pre, assocGet s k = none) → assocGet hit k = some v →
        TieredDatastore.get (pre ++ hit :: post) k
          = (pre.map (fun s => assocPut s k v) ++ hit :: post, some v)
        ∧ ∀ s2 ∈ pre.map (fun s => assocPut s k v), assocGet s2 k = some v)
    ∧ (∀ (hit : List (Key × V)) (post : List (List (Key × V))) (k : Key) (v : V),
        assocGet hit k = some v →
        TieredDatastore.get (hit :: post) k = (hit :: post, some v)) := by
  refine ⟨?_, ?_, ?_⟩
  · intro stores k h
    unfold TieredDatastore.get
    rw [firstHit_of_all_none k stores h]
  · intro pre post hit k v hpre hhit
    refine ⟨?_, ?_⟩
    · have hfh := firstHit_append k pre post hit v hpre hhit
      simp only [TieredDatastore.get, hfh]
      rw [take_length_append, drop_length_append]
    · intro s2 hs2
      simp only [List.mem_map] at hs2
      obtain ⟨s, _, rfl⟩ := hs2
      exact assocGet_assocPut_self s k v
  · intro hit post k v hhit
    have hfh := firstHit_append k [] post hit v (by simp) hhit
    simp only [List.nil_append, List.length_nil] at hfh
    simp [TieredDatastore.get, hfh]

/-- Witness for C3: a hit at the second of two tiers promotes the value
into the first tier; a hit at the first tier leaves the state unchanged;
with no hit the state is unchanged and absence is reported. -/
theorem tiered_get_promotion_witness :
    TieredDatastore.get ([[], [(kW, 5)]] : List (List (Key × Nat))) kW
      = ([[(kW, 5)], [(kW, 5)]], some 5)
    ∧ TieredDatastore.get ([[(kW, 3)]] : List (List (Key × Nat))) kW = ([[(kW, 3)]], some 3)
    ∧ TieredDatastore.get ([[]] : List (List (Key × Nat))) kW = ([[]], none) := by
  refine ⟨?_, ?_, ?_⟩
  · exact (tiered_get_promotion.2.1 [[]] [] [(kW, 5)] kW 5 (by decide) (by decide)).1
  · exact tiered_get_promotion.2.2 [(kW, 3)] [] kW 3 (by decide)
  · exact tiered_get_promotion.1 [[]] kW (by decide)

/-- C4: TieredDatastore.put fans the write out to every tier in order,
unconditionally, and afterwards every tier reports the value directly. -/
theorem tiered_put_writethrough {V : Type} (stores : List (List (Key × V))) (k : Key) (v : V) :
    TieredDatastore.put stores k (some v) = stores.map (fun s => dsPut s k (some v))
    ∧ (TieredDatastore.put stores k (some v)).length = stores.length
    ∧ ∀ s2 ∈ TieredDatastore.put stores k (some v), assocGet s2 k = some v := by
  refine ⟨rfl, by simp [TieredDatastore.put], ?_⟩
  intro s2 hs2
  simp only [TieredDatastore.put, List.mem_map] at hs2
  obtain ⟨s, _, rfl⟩ := hs2
  exact assocGet_assocPut_self s k v

/-- Witness for C4: after a write-through over two tiers, each tier
reports the written value. -/
theorem tiered_put_writethrough_witness :
    assocGet ([(kW, 7)] : List (Key × Nat)) kW = some 7
    ∧ assocGet ([({ path := "/a", name := "c" }, 9), (kW, 7)] : List (Key × Nat)) kW = some 7 := by
  refine ⟨?_, ?_⟩
  · exact (tiered_put_writethrough ([[]] : List (List (Key × Nat))) kW 7).2.2
      [(kW, 7)] (by decide)
  · exact (tiered_put_writethrough
      ([[], [({ path := "/a", name := "c" }, 9)]] : List (List (Key × Nat))) kW 7).2.2
      [({ path := "/a", name := "c" }, 9), (kW, 7)] (by decide)

/-- C10: an empty shard list is accepted at construction, every keyed
operation on it then fails with the zero-division condition from the
`mod len(stores)` shard computation, and with at least one shard every
keyed operation succeeds. -/
theorem sharded_empty_shards {V : Type} :
    (∀ fn : Key → Int, ShardedDatastore.init ([] : List (List (Key × V))) fn
        = Except.ok { stores := [], shardingfn := fn })
    ∧ (∀ (fn : Key → Int) (k : Key) (v : Option V),
        ShardedDatastore.get ({ stores := [], shardingfn := fn } : ShardedState V) k
          = Except.error PyError.zeroDivision
        ∧ ShardedDatastore.put ({ stores := [], shardingfn := fn } : ShardedState V) k v
          = Except.error PyError.zeroDivision
        ∧ ShardedDatastore.delete ({ stores := [], shardingfn := fn } : ShardedState V) k
          = Except.error PyError.zeroDivision
        ∧ ShardedDatastore.contains ({ stores := [], shardingfn := fn } : ShardedState V) k
          = Except.error PyError.zeroDivision)
    ∧ (∀ (st : ShardedState V) (k : Key) (v : Option V), st.stores ≠ [] →
        (∃ r, ShardedDatastore.get st k = Except.ok r)
        ∧ (∃ st2, ShardedDatastore.put st k v = Except.ok st2)
        ∧ (∃ st2, ShardedDatastore.delete st k = Except.ok st2)
        ∧ (∃ b, ShardedDatastore.contains st k = Except.ok b)) := by
  refine ⟨fun fn => rfl, fun fn k v => ⟨rfl, rfl, rfl, rfl⟩, ?_⟩
  intro st k v hst
  have h0 : ¬ st.stores.length = 0 := by
    intro h
    exact hst (List.length_eq_zero.mp h)
  have hsh : ShardedDatastore.shard st k
      = Except.ok (st.shardingfn k % (st.stores.length : Int)).toNat := by
    simp [ShardedDatastore.shard, h0]
  refine ⟨?_, ?_, ?_, ?_⟩
  · unfold ShardedDatastore.get
    rw [hsh]
    exact ⟨_, rfl⟩
  · unfold ShardedDatastore.put
    rw [hsh]
    exact ⟨_, rfl⟩
  · unfold ShardedDatastore.delete
    rw [hsh]
    exact ⟨_, rfl⟩
  · unfold ShardedDatastore.contains
    rw [hsh]
    exact ⟨_, rfl⟩

/-- Witness for C10: on a one-shard collection the keyed operations
succeed. -/
theorem sharded_empty_shards_witness :
    (∃ r, ShardedDatastore.get
        ({ stores := [[]], shardingfn := fun _ => 0 } : ShardedState Nat) kW = Except.ok r)
    ∧ (∃ st2, ShardedDatastore.put
        ({ stores := [[]], shardingfn := fun _ => 0 } : ShardedState Nat) kW (some 4)
          = Except.ok st2) := by
  refine ⟨?_, ?_⟩
  · exact (sharded_empty_shards.2.2
      ({ stores := [[]], shardingfn := fun _ => 0 } : ShardedState Nat) kW (some 4)
      (by simp)).1
  · exact (sharded_empty_shards.2.2
      ({ stores := [[]], shardingfn := fun _ => 0 } : ShardedState Nat) kW (some 4)
      (by simp)).2.1

/-- C2: ShardedDatastore.query applies the materializing order pass on the
merged cross-shard sequence exactly when the original query requested an
order directive; with no order directive the merged sequence is exposed as
produced by the generator. -/
theorem sharded_query_order_pass {V : Type} (q : Query V) (shards : List (List V)) :
    (q.order = [] →
      ShardedDatastore.query q shards
        = { query := q, iterable := (ShardedDatastore.shard_query_generator q shards).1 })
    ∧ (q.order ≠ [] →
      ShardedDatastore.query q shards
        = { query := q,
            iterable :=
              applyOrderDirs q.order (ShardedDatastore.shard_query_generator q shards).1 }) := by
  constructor
  · intro h
    simp [ShardedDatastore.query, Cursor.apply_order, h]
  · intro h
    simp [ShardedDatastore.query, Cursor.apply_order, h]

/-- Witness for C2: a query without order is passed through unsorted; a
query with an order directive gets the sort pass over the merged output. -/
theorem sharded_query_order_pass_witness :
    ShardedDatastore.query qW shardsW
      = { query := qW, iterable := (ShardedDatastore.shard_query_generator qW shardsW).1 }
    ∧ ShardedDatastore.query qOrdW shardsW
      = { query := qOrdW,
          iterable :=
            applyOrderDirs qOrdW.order (ShardedDatastore.shard_query_generator qOrdW shardsW).1 } := by
  refine ⟨?_, ?_⟩
  · exact (sharded_query_order_pass qW shardsW).1 rfl
  · exact (sharded_query_order_pass qOrdW shardsW).2 (by simp [qOrdW])

theorem listGet_of_lt {A : Type} (l : List A) (r : Nat) (h : r < l.length) :
    ∃ a, l.get? r = some a := by
  induction l generalizing r with
  | nil => exact absurd h (Nat.not_lt_zero r)
  | cons b t ih =>
    cases r with
    | zero => exact ⟨b, rfl⟩
    | succ n => exact ih n (Nat.lt_of_succ_lt_succ h)

theorem listGet_append_left {A : Type} (l1 l2 : List A) (r : Nat) (h : r < l1.length) :
    (l1 ++ l2).get? r = l1.get? r := by
  induction l1 generalizing r with
  | nil => exact absurd h (Nat.not_lt_zero r)
  | cons b t ih =>
    cases r with
    | zero => rfl
    | succ n => exact ih n (Nat.lt_of_succ_lt_succ h)

theorem listGet_append_self {A : Type} (l : List A) (x : A) :
    (l ++ [x]).get? l.length = some x := by
  induction l with
  | nil => rfl
  | cons b t ih => exact ih

theorem listGet_set_ne {A : Type} (l : List A) (i j : Nat) (a : A) (hij : i ≠ j) :
    (l.set i a).get? j = l.get? j := by
  induction l generalizing i j with
  | nil => rfl
  | cons b t ih =>
    cases i with
    | zero =>
      cases j with
      | zero => exact absurd rfl hij
      | succ m => rfl
    | succ n =>
      cases j with
      | zero => rfl
      | succ m => exact ih n m (fun e => hij (by rw [e]))

theorem listGet_set_self {A : Type} (l : List A) (i : Nat) (a : A) (h : i < l.length) :
    (l.set i a).get? i = some a := by
  induction l generalizing i with
  | nil => exact absurd h (Nat.not_lt_zero i)
  | cons b t ih =>
    cases i with
    | zero => rfl
    | succ n => exact ih n (Nat.lt_of_succ_lt_succ h)

theorem shardGoH_frame {V : Type} (shards : List (List V)) :
    ∀ (h : QHeap V) (rq j : Nat), j ≠ rq →
      (shardGoH shards h rq).1.get? j = h.get? j := by
  induction shards with
  | nil => intro h rq j _; rfl
  | cons shard rest ih =>
    intro h rq j hj
    simp only [shardGoH]
    split_ifs with h1 h2
    · dsimp only
      rw [ih _ rq j hj, listGet_set_ne _ _ _ _ (Ne.symm hj),
          listGet_set_ne _ _ _ _ (Ne.symm hj)]
    · dsimp only
      rw [listGet_set_ne _ _ _ _ (Ne.symm hj), listGet_set_ne _ _ _ _ (Ne.symm hj)]
    · dsimp only
      rw [ih _ rq j hj, listGet_set_ne _ _ _ _ (Ne.symm hj)]

/-- C8: both KeyTransformDatastore.query and the sharded query generator
work on a fresh copy of the query object: after the call the cell the
caller passed in is unchanged (key, offset and limit keep their pre-call
values); the key-transform wrapper hands the child a distinct cell holding
the clone with the rewritten key. -/
theorem query_uses_clone {V : Type} :
    (∀ (t : Key → Key) (h : QHeap V) (r : Nat), r < h.length →
        (KeyTransformDatastore.queryH t h r).1.get? r = h.get? r
        ∧ (KeyTransformDatastore.queryH t h r).2 ≠ r
        ∧ (KeyTransformDatastore.queryH t h r).1.get? (KeyTransformDatastore.queryH t h r).2
            = (h.get? r).map (fun q0 => { q0 with key := t q0.key }))
    ∧ (∀ (h : QHeap V) (r : Nat) (shards : List (List V)), r < h.length →
        (ShardedDatastore.shard_query_generatorH h r shards).1.get? r = h.get? r) := by
  constructor
  · intro t h r hr
    obtain ⟨q0, hq0⟩ := listGet_of_lt h r hr
    have hne : h.length ≠ r := fun e => absurd (e ▸ hr) (Nat.lt_irrefl _)
    refine ⟨?_, ?_, ?_⟩
    · simp only [KeyTransformDatastore.queryH, Query.copyH, hq0, Option.getD_some]
      rw [listGet_set_ne _ _ _ _ hne, listGet_append_left _ _ _ hr]
      exact hq0
    · exact hne
    · simp only [KeyTransformDatastore.queryH, Query.copyH, hq0, Option.getD_some,
                 listGet_append_self]
      rw [listGet_set_self]
      · rfl
      · simp
  · intro h r shards hr
    have hne : r ≠ h.length := Nat.ne_of_lt hr
    simp only [ShardedDatastore.shard_query_generatorH, Query.copyH]
    rw [shardGoH_frame shards _ _ _ hne, listGet_append_left _ _ _ hr]

/-- Witness for C8: on a one-cell heap both query paths leave the original
query cell intact. -/
theorem query_uses_clone_witness :
    (KeyTransformDatastore.queryH (fun k => { path := k.path, name := "t" }) [qW] 0).1.get? 0
      = some qW
    ∧ (ShardedDatastore.shard_query_generatorH [qW] 0 shardsW).1.get? 0 = some qW := by
  constructor
  · exact ((query_uses_clone.1 (fun k => { path := k.path, name := "t" }) [qW] 0
      (by decide)).1).trans rfl
  · exact (query_uses_clone.2 [qW] 0 shardsW (by decide)).trans rfl

theorem listGetD_cons_zero {A : Type} (a : A) (l : List A) (d : A) :
    (a :: l).getD 0 d = a := rfl

theorem listGetD_cons_succ {A : Type} (a : A) (l : List A) (n : Nat) (d : A) :
    (a :: l).getD (n + 1) d = l.getD n d := rfl

theorem pyTruthy_ne_some_zero (o : Option Nat) (h : pyTruthy o = true) : o ≠ some 0 := by
  intro e
  subst e
  simp [pyTruthy] at h

theorem renorm_of_falsy {V : Type} (sq : Query V) (cur : CursorResult V)
    (h : pyTruthy sq.limit = false) :
    renormQuery sq cur = { sq with offset := sq.offset - cur.skipped } := by
  obtain ⟨k, off, lim, ord, fil⟩ := sq
  cases lim with
  | none => rfl
  | some n =>
    have hn : n = 0 := by simpa [pyTruthy] using h
    subst hn
    simp [renormQuery, Nat.zero_sub]

theorem shardGo_length {V : Type} :
    ∀ (shards : List (List V)) (sq : Query V),
      (shardGo sq shards).2.length ≤ shards.length := by
  intro shards
  induction shards with
  | nil => intro sq; simp [shardGo]
  | cons shard rest ih =>
    intro sq
    simp only [shardGo]
    split_ifs with hb1 hb2
    · dsimp only
      simp only [List.length_cons]
      exact Nat.succ_le_succ (ih _)
    · dsimp only
      simp only [List.length_cons, List.length_nil]
      exact Nat.succ_le_succ (Nat.zero_le _)
    · dsimp only
      simp only [List.length_cons]
      exact Nat.succ_le_succ (ih _)

theorem shardGo_head {V : Type} (d : Query V) :
    ∀ (shards : List (List V)) (sq : Query V), shards ≠ [] →
      (shardGo sq shards).2.getD 0 d = sq := by
  intro shards sq h
  cases shards with
  | nil => exact absurd rfl h
  | cons shard rest =>
    simp only [shardGo]
    split_ifs <;> rfl

theorem shardGo_fields {V : Type} :
    ∀ (shards : List (List V)) (sq p : Query V),
      p ∈ (shardGo sq shards).2 →
      p.key = sq.key ∧ p.order = sq.order ∧ p.filters = sq.filters := by
  intro shards
  induction shards with
  | nil => intro sq p hp; simp [shardGo] at hp
  | cons shard rest ih =>
    intro sq p hp
    simp only [shardGo] at hp
    split_ifs at hp with hb1 hb2
    · dsimp only at hp
      rcases List.mem_cons.mp hp with he | ht
      · subst he; exact ⟨rfl, rfl, rfl⟩
      · have h3 := ih _ p ht
        exact h3
    · dsimp only at hp
      have he : p = sq := List.mem_singleton.mp hp
      subst he; exact ⟨rfl, rfl, rfl⟩
    · dsimp only at hp
      rcases List.mem_cons.mp hp with he | ht
      · subst he; exact ⟨rfl, rfl, rfl⟩
      · have h3 := ih _ p ht
        exact h3

theorem shardGo_step {V : Type} (d : Query V) :
    ∀ (shards : List (List V)) (sq : Query V) (i : Nat),
      i + 1 < (shardGo sq shards).2.length →
      (shardGo sq shards).2.getD (i + 1) d
        = renormQuery ((shardGo sq shards).2.getD i d)
            (runQuery ((shardGo sq shards).2.getD i d) (shards.getD i [])) := by
  intro shards
  induction shards with
  | nil => intro sq i h; simp [shardGo] at h
  | cons shard rest ih =>
    intro sq i h
    simp only [shardGo] at h ⊢
    split_ifs at h ⊢ with hb1 hb2
    · dsimp only at h ⊢
      cases i with
      | zero =>
        have hrest : rest ≠ [] := by
          intro e
          subst e
          simp only [shardGo, List.length_cons, List.length_nil] at h
          omega
        simp only [listGetD_cons_succ, listGetD_cons_zero]
        rw [shardGo_head d rest _ hrest]
        rfl
      | succ n =>
        simp only [listGetD_cons_succ]
        exact ih _ n (by simpa [List.length_cons] using h)
    · dsimp only at h
      simp only [List.length_cons, List.length_nil] at h
      exact absurd h (by omega)
    · dsimp only at h ⊢
      cases i with
      | zero =>
        have hrest : rest ≠ [] := by
          intro e
          subst e
          simp only [shardGo, List.length_cons, List.length_nil] at h
          omega
        simp only [listGetD_cons_succ, listGetD_cons_zero]
        rw [shardGo_head d rest _ hrest]
        have hf : pyTruthy sq.limit = false := Bool.eq_false_iff.mpr hb1
        exact (renorm_of_falsy sq _ hf).symm
      | succ n =>
        simp only [listGetD_cons_succ]
        exact ih _ n (by simpa [List.length_cons] using h)

theorem shardGo_limit_stop {V : Type} (d : Query V) :
    ∀ (shards : List (List V)) (sq : Query V) (i : Nat),
      i + 1 < (shardGo sq shards).2.length →
      pyTruthy ((shardGo sq shards).2.getD i d).limit = true →
      ((shardGo sq shards).2.getD (i + 1) d).limit ≠ some 0 := by
  intro shards
  induction shards with
  | nil => intro sq i h; simp [shardGo] at h
  | cons shard rest ih =>
    intro sq i h ht
    simp only [shardGo] at h ht ⊢
    split_ifs at h ht ⊢ with hb1 hb2
    · dsimp only at h ht ⊢
      cases i with
      | zero =>
        have hrest : rest ≠ [] := by
          intro e
          subst e
          simp only [shardGo, List.length_cons, List.length_nil] at h
          omega
        simp only [listGetD_cons_succ, listGetD_cons_zero]
        rw [shardGo_head d rest _ hrest]
        exact pyTruthy_ne_some_zero _ hb2
      | succ n =>
        simp only [listGetD_cons_succ] at ht ⊢
        exact ih _ n (by simpa [List.length_cons] using h) ht
    · dsimp only at h
      simp only [List.length_cons, List.length_nil] at h
      exact absurd h (by omega)
    · dsimp only at h ht ⊢
      cases i with
      | zero =>
        simp only [listGetD_cons_zero] at ht
        exact absurd ht hb1
      | succ n =>
        simp only [listGetD_cons_succ] at ht ⊢
        exact ih _ n (by simpa [List.length_cons] using h) ht

theorem shardGo_out {V : Type} :
    ∀ (shards : List (List V)) (sq : Query V),
      (shardGo sq shards).1
        = (List.zipWith (fun p sh => (runQuery p sh).results)
            (shardGo sq shards).2 shards).flatten := by
  intro shards
  induction shards with
  | nil => intro sq; rfl
  | cons shard rest ih =>
    intro sq
    simp only [shardGo]
    split_ifs with hb1 hb2
    · dsimp only
      simp only [List.zipWith_cons_cons, List.flatten_cons]
      rw [ih _]
    · dsimp only
      simp only [List.zipWith_cons_cons, List.zipWith_nil_left, List.flatten_cons,
                 List.flatten_nil, List.append_nil]
    · dsimp only
      simp only [List.zipWith_cons_cons, List.flatten_cons]
      rw [ih _]

/-- C1: the sharded query generator visits shards in collection order with
a single clone of the query: the trace of issued queries starts at the
clone, is at most one query per shard, keeps the key, order and filter
fields of the original, and each successive issued query renormalizes the
previous one by the exhausted cursor (offset minus skipped, limit minus
returned, both floored at 0); whenever a further shard is queried after
one whose query carried a positive limit, the handed-down limit has not
reached 0 (a remaining limit of 0 stops the visiting). The merged output
is exactly the concatenation, in shard order, of the results each issued
query produced on its shard. -/
theorem sharded_generator_renormalization {V : Type} (q : Query V) (shards : List (List V)) :
    ((ShardedDatastore.shard_query_generator q shards).2.length ≤ shards.length)
    ∧ (shards ≠ [] →
        (ShardedDatastore.shard_query_generator q shards).2.getD 0 q = Query.copy q)
    ∧ (∀ p ∈ (ShardedDatastore.shard_query_generator q shards).2,
        p.key = q.key ∧ p.order = q.order ∧ p.filters = q.filters)
    ∧ (∀ i, i + 1 < (ShardedDatastore.shard_query_generator q shards).2.length →
        (ShardedDatastore.shard_query_generator q shards).2.getD (i + 1) q
          = renormQuery ((ShardedDatastore.shard_query_generator q shards).2.getD i q)
              (runQuery ((ShardedDatastore.shard_query_generator q shards).2.getD i q)
                (shards.getD i [])))
    ∧ (∀ i, i + 1 < (ShardedDatastore.shard_query_generator q shards).2.length →
        pyTruthy ((ShardedDatastore.shard_query_generator q shards).2.getD i q).limit = true →
        ((ShardedDatastore.shard_query_generator q shards).2.getD (i + 1) q).limit ≠ some 0)
    ∧ ((ShardedDatastore.shard_query_generator q shards).1
        = (List.zipWith (fun p sh => (runQuery p sh).results)
            (ShardedDatastore.shard_query_generator q shards).2 shards).flatten) := by
  refine ⟨shardGo_length shards _, fun h => shardGo_head q shards _ h, ?_,
          fun i hi => shardGo_step q shards _ i hi,
          fun i hi ht => shardGo_limit_stop q shards _ i hi ht,
          shardGo_out shards _⟩
  intro p hp
  have h3 := shardGo_fields shards (Query.copy q) p hp
  exact h3

/-- Witness for C1: on two shards with offset 1 and limit 3, the second
issued query is the renormalization of the first by the first cursor, and
its limit has not reached 0. -/
theorem sharded_generator_renormalization_witness :
    ((ShardedDatastore.shard_query_generator qW shardsW).2.getD 0 qW = Query.copy qW)
    ∧ ((ShardedDatastore.shard_query_generator qW shardsW).2.getD 1 qW
        = renormQuery ((ShardedDatastore.shard_query_generator qW shardsW).2.getD 0 qW)
            (runQuery ((ShardedDatastore.shard_query_generator qW shardsW).2.getD 0 qW)
              (shardsW.getD 0 [])))
    ∧ (((ShardedDatastore.shard_query_generator qW shardsW).2.getD 1 qW).limit ≠ some 0) := by
  refine ⟨?_, ?_, ?_⟩
  · exact (sharded_generator_renormalization qW shardsW).2.1 (by decide)
  · exact (sharded_generator_renormalization qW shardsW).2.2.2.1 0 (by decide)
  · exact (sharded_generator_renormalization qW shardsW).2.2.2.2.1 0 (by decide) (by decide)
